import Mathlib

/-!
Verification of the Hebbian training core of `pytorch-hebbian`
(`src/pytorch_hebbian/trainers.py` and
`src/pytorch_hebbian/learning_engines/hebbian_engine.py`) against its
natural-language specification.

The embedding models tensors as nested lists of integers (exact
arithmetic; machine floating point is out of scope for the structural
and data-flow properties verified here).  Layers, the trainable-layer
scan of `HebbianTrainer.__init__`, `HebbianTrainer._prepare_data`, the
per-batch update closure of `create_hebbian_trainer`, and
`HebbianEngine.train` are translated directly from the source.
Repository code that is not part of the provided sources
(`utils.extract_image_patches`, `utils.prepare_batch`, the `Local`
optimizer, the `LearningRule` classes) is modelled from the spec, each
such definition carrying a doc comment saying so.
-/

namespace PytorchHebbian

/-- Sum of pairwise products of two integer vectors (torch dot product;
`zipWith` mirrors torch's requirement that both operands have equal
length — on mismatched lengths the extra entries are ignored, a case
that never arises on shape-consistent models). -/
def dot (v w : List Int) : Int :=
  (List.zipWith (· * ·) v w).sum

/-- A dense (`torch.nn.Linear`) layer: weight of shape
[out_features, in_features] and a bias of length out_features. -/
structure LinearLayer where
  weight : List (List Int)
  bias : List Int
  deriving Repr, DecidableEq

/-- Forward pass of a dense layer on a 2-D batch [N, in_features]:
each output row is `weight @ x + bias`. -/
def LinearLayer.forward2 (l : LinearLayer) (x : List (List Int)) : List (List Int) :=
  x.map (fun row => (l.weight.zip l.bias).map (fun p => dot p.1 row + p.2))

/-- A convolutional (`torch.nn.Conv2d`) layer: weight of shape
[out_channels, in_channels, kH, kW], bias of length out_channels, and
the geometry attributes the source reads (`kernel_size`, `stride`,
`padding`, `dilation`). -/
structure Conv2dLayer where
  weight : List (List (List (List Int)))
  bias : List Int
  kernel_size : Nat × Nat
  stride : Nat × Nat
  padding : Nat × Nat
  dilation : Nat × Nat
  deriving Repr, DecidableEq

/-- Read a pixel of a single channel with zero padding outside the
image bounds (torch zero-padding semantics). -/
def pix (ch : List (List Int)) (i j : Int) : Int :=
  if i < 0 ∨ j < 0 then 0
  else ((ch.getD i.toNat []).getD j.toNat 0)

/-- Number of output positions along one spatial dimension of a
convolution: `(size + 2*padding - dilation*(kernel-1) - 1) / stride + 1`
(the torch formula; natural subtraction truncates at 0, matching the
fact that torch rejects negative results). -/
def outDim (size kernel stride padding dilation : Nat) : Nat :=
  (size + 2 * padding - (dilation * (kernel - 1) + 1)) / stride + 1

/-- Correlation of one output-channel weight [in_channels, kH, kW] with
an input sample [in_channels, H, W] at output position (oh, ow). -/
def convAt (wOut : List (List (List Int))) (sample : List (List (List Int)))
    (stride padding dilation : Nat × Nat) (oh ow : Nat) : Int :=
  ((wOut.zip sample).map (fun hc =>
    (hc.1.enum.map (fun hrow =>
      (hrow.2.enum.map (fun hv =>
        hv.2 * pix hc.2 (((oh * stride.1 + hrow.1 * dilation.1 : Nat) : Int) - (padding.1 : Int))
                        (((ow * stride.2 + hv.1 * dilation.2 : Nat) : Int) - (padding.2 : Int)))).sum)).sum)).sum

/-- Forward pass of a convolutional layer on a 4-D batch [N, C, H, W]. -/
def Conv2dLayer.forward4 (c : Conv2dLayer) (x : List (List (List (List Int)))) :
    List (List (List (List Int))) :=
  x.map (fun sample =>
    let H := (sample.getD 0 []).length
    let W := ((sample.getD 0 []).getD 0 []).length
    let hOut := outDim H c.kernel_size.1 c.stride.1 c.padding.1 c.dilation.1
    let wOut := outDim W c.kernel_size.2 c.stride.2 c.padding.2 c.dilation.2
    (c.weight.zip c.bias).map (fun oc =>
      (List.range hOut).map (fun oh =>
        (List.range wOut).map (fun ow =>
          oc.2 + convAt oc.1 sample c.stride c.padding c.dilation oh ow))))

/-- An activation tensor: a 2-D batch [N, features] or a 4-D image
batch [N, C, H, W] (the two ranks the Hebbian path manipulates). -/
inductive Tensor where
  | t2 : List (List Int) → Tensor
  | t4 : List (List (List (List Int))) → Tensor
  deriving Repr, DecidableEq

/-- A model child layer.  `relu` and `flatten` stand for the layer
kinds the trainable-layer scan classifies as neither dense nor
convolutional ("other"). -/
inductive Layer where
  | linear : LinearLayer → Layer
  | conv2d : Conv2dLayer → Layer
  | relu : Layer
  | flatten : Layer
  deriving Repr, DecidableEq

/-- Elementwise `max 0` (torch ReLU). -/
def reluInt (v : Int) : Int := max v 0

/-- Forward transformation of a layer, as invoked by `lyr(x)` in
`_prepare_data`.  A dense layer acts on the last dimension; `flatten`
collapses each sample of a 4-D batch (`torch.nn.Flatten` default
`start_dim=1`); a convolutional layer applied to a 2-D activation has
no torch meaning (torch raises) and yields the empty batch here. -/
def Layer.forward : Layer → Tensor → Tensor
  | .linear l, .t2 d => .t2 (l.forward2 d)
  | .linear l, .t4 d => .t4 (d.map (fun s => s.map (fun ch => l.forward2 ch)))
  | .conv2d c, .t4 d => .t4 (c.forward4 d)
  | .conv2d _, .t2 _ => .t2 []
  | .relu, .t2 d => .t2 (d.map (fun r => r.map reluInt))
  | .relu, .t4 d => .t4 (d.map (fun s => s.map (fun ch => ch.map (fun r => r.map reluInt))))
  | .flatten, .t2 d => .t2 d
  | .flatten, .t4 d => .t2 (d.map (fun s => s.flatten.flatten))

/-- A model: the ordered, named children of the `torch.nn.Sequential`
passed to the trainer (`model.named_children()`). -/
abbrev Model := List (String × Layer)

/-- Python prefix slice `l[:k]` for an `int` bound `k`: a nonnegative
bound takes the first `k` elements; a negative bound stops `|k|`
elements before the end (`max 0 (len + k)`). -/
def pySliceTo (k : Int) (l : List α) : List α :=
  if 0 ≤ k then l.take k.toNat else l.take ((l.length : Int) + k).toNat

/-- A trainable-layer record, the `Layer = namedtuple('Layer', ['idx',
'name', 'layer'])` built in `HebbianTrainer.__init__`. -/
structure LayerRec where
  idx : Nat
  name : String
  layer : Layer
  deriving Repr, DecidableEq

/-- Whether the scan in `HebbianTrainer.__init__` classifies a layer as
Hebbian-trainable by kind (`type(layer) == torch.nn.Linear or
type(layer) == torch.nn.Conv2d`). -/
def isTrainableKind : Layer → Bool
  | .linear _ => true
  | .conv2d _ => true
  | _ => false

/-- The trainable-layer scan of `HebbianTrainer.__init__` (trainers.py
lines 176-183): enumerate `list(model.named_children())[:supervised_from]`
and keep the dense/convolutional layers whose name is not frozen. -/
def identifyTrainableLayers (model : Model) (supervised_from : Int)
    (freeze_layers : List String) : List LayerRec :=
  (pySliceTo supervised_from model).enum.filterMap (fun p =>
    if isTrainableKind p.2.2 && !(freeze_layers.contains p.2.1)
    then some ⟨p.1, p.2.1, p.2.2⟩ else none)

/-- Split a flat list into consecutive rows of length `n` (the torch
reshape `view(-1, n)`; row `i` holds elements `i*n` to `i*n + n - 1`,
and an empty input or `n = 0` yields no rows). -/
def chunks (n : Nat) (l : List α) : List (List α) :=
  (List.range ((l.length + n - 1) / n)).map (fun i => (l.drop (i * n)).take n)

/-- Flatten a 4-D weight tensor to its row-major element list. -/
def flatten4 (w : List (List (List (List Int)))) : List Int :=
  w.flatten.flatten.flatten

/-- The view `x.view((x.shape[0], -1))` applied at the end of
`_prepare_data`: keep the leading dimension, flatten the rest. -/
def viewFlatten : Tensor → List (List Int)
  | .t2 d => d
  | .t4 d => d.map (fun s => s.flatten.flatten)

/-- Modelled from the spec: `utils.extract_image_patches` is repository
code not present under src/.  Following §4.3, it pads the input per
`padding`, slides a `kernel_size` window with `stride` and `dilation`,
and returns for each batch element (batch-major) and each output
spatial position (row-major) the flattened receptive-field vector of
length channels × kernel height × kernel width. -/
def extract_image_patches (x : List (List (List (List Int))))
    (kernel_size stride padding dilation : Nat × Nat) : List (List Int) :=
  x.flatMap (fun sample =>
    let H := (sample.getD 0 []).length
    let W := ((sample.getD 0 []).getD 0 []).length
    let hOut := outDim H kernel_size.1 stride.1 padding.1 dilation.1
    let wOut := outDim W kernel_size.2 stride.2 padding.2 dilation.2
    (List.range hOut).flatMap (fun oh =>
      (List.range wOut).map (fun ow =>
        sample.flatMap (fun ch =>
          (List.range kernel_size.1).flatMap (fun kh =>
            (List.range kernel_size.2).map (fun kw =>
              pix ch (((oh * stride.1 + kh * dilation.1 : Nat) : Int) - (padding.1 : Int))
                     (((ow * stride.2 + kw * dilation.2 : Nat) : Int) - (padding.2 : Int))))))))

/-- Failure modes of `_prepare_data`: `layers[layer_index]` out of
range (IndexError) or the `raise TypeError("Unsupported layer type!")`
branch. -/
inductive PrepError where
  | indexOutOfRange
  | unsupportedLayer
  deriving Repr, DecidableEq

/-- The replay part of `_prepare_data` (trainers.py lines 226-231): the
input right before the target layer is the batch inputs when
`layer_index == 0`, otherwise the batch inputs pushed through every
layer with a smaller index. -/
def replay (inputs : Tensor) (layers : List Layer) (layer_index : Nat) : Tensor :=
  if layer_index = 0 then inputs
  else (layers.take layer_index).foldl (fun x lyr => lyr.forward x) inputs

/-- `HebbianTrainer._prepare_data` (trainers.py lines 213-246): replay
the forward computation up to the target layer, then pair the
flattened activation with the layer's weight view — the weight
unchanged for a dense layer, the weight viewed as rows of length
kH·kW together with extracted image patches for a convolutional
layer. -/
def prepare_data (inputs : Tensor) (layers : List Layer) (layer_index : Nat) :
    Except PrepError (List (List Int) × List (List Int)) :=
  match layers.get? layer_index with
  | none => .error .indexOutOfRange
  | some layer =>
    let x := replay inputs layers layer_index
    match layer with
    | .linear l => .ok (viewFlatten x, l.weight)
    | .conv2d c =>
      let w := chunks (c.kernel_size.1 * c.kernel_size.2) (flatten4 c.weight)
      let patches :=
        match x with
        | .t4 d => extract_image_patches d c.kernel_size c.stride c.padding c.dilation
        | .t2 _ => []
      .ok (viewFlatten (.t2 patches), w)
    | _ => .error .unsupportedLayer

/-- Index-threading form of the trainable-layer scan, used to reason
about `identifyTrainableLayers` by structural induction; `scanAux fz i
l` scans the already-sliced suffix `l` whose first element has
original index `i`. -/
def scanAux (fz : List String) : Nat → List (String × Layer) → List LayerRec
  | _, [] => []
  | i, p :: rest =>
    if isTrainableKind p.2 && !(fz.contains p.1)
    then ⟨i, p.1, p.2⟩ :: scanAux fz (i + 1) rest
    else scanAux fz (i + 1) rest

/-- A weight tensor: rank 2 for dense layers, rank 4 for convolutional
layers. -/
inductive WeightT where
  | w2 : List (List Int) → WeightT
  | w4 : List (List (List (List Int))) → WeightT
  deriving Repr, DecidableEq

/-- The weight tensor of a layer, when it has one. -/
def Layer.weightT? : Layer → Option WeightT
  | .linear l => some (.w2 l.weight)
  | .conv2d c => some (.w4 c.weight)
  | _ => none

/-- Replace a layer's weight tensor (in-place mutation of
`layer.weight` in the source). -/
def Layer.setWeightT : Layer → WeightT → Layer
  | .linear l, .w2 w => .linear { l with weight := w }
  | .conv2d c, .w4 w => .conv2d { c with weight := w }
  | l, _ => l

/-- Rows of a 2-D reshape target refilled from a flat list. -/
def takeLike2 : List (List Int) → List Int → List (List Int)
  | [], _ => []
  | r :: rs, flat => flat.take r.length :: takeLike2 rs (flat.drop r.length)

/-- 3-D reshape target refilled from a flat list. -/
def takeLike3 : List (List (List Int)) → List Int → List (List (List Int))
  | [], _ => []
  | m :: ms, flat => takeLike2 m flat :: takeLike3 ms (flat.drop m.flatten.length)

/-- 4-D reshape target refilled from a flat list. -/
def takeLike4 : List (List (List (List Int))) → List Int → List (List (List (List Int)))
  | [], _ => []
  | c :: cs, flat => takeLike3 c flat :: takeLike4 cs (flat.drop c.flatten.flatten.length)

/-- The reshape `d_p.view(*layer.weight.size())` (trainers.py line
271): rebuild a flat element list into the shape of the given weight
tensor (row-major, as torch view; on an exactly sized flat list this
is the inverse of flattening). -/
def viewLike : WeightT → List Int → WeightT
  | .w2 w, flat => .w2 (takeLike2 w flat)
  | .w4 w, flat => .w4 (takeLike4 w flat)

/-- Elementwise sum of two 2-D tensors. -/
def add2 (a b : List (List Int)) : List (List Int) :=
  List.zipWith (List.zipWith (· + ·)) a b

/-- Elementwise sum of two 4-D tensors. -/
def add4 (a b : List (List (List (List Int)))) : List (List (List (List Int))) :=
  List.zipWith (List.zipWith (List.zipWith (List.zipWith (· + ·)))) a b

/-- Modelled from the spec: the optimizer is a pluggable collaborator
whose implementation is not under src/; §6 requires `local_step(delta,
layer_name=name)` to "apply the delta to the named layer's weights in
place", modelled as elementwise addition of the (already reshaped)
delta to the weight. -/
def local_step : WeightT → WeightT → WeightT
  | .w2 w, .w2 d => .w2 (add2 w d)
  | .w4 w, .w4 d => .w4 (add4 w d)
  | w, _ => w

/-- Modelled from the spec: a learning rule is a pluggable collaborator
whose implementation is not under src/.  `update` maps (prepared
input, weight view) to a delta shaped like the weight view (§6);
`initW` gives the flat weight data `init_layers` assigns to a
trainable-layer record (e.g. a random normal draw, §6). -/
structure LearningRule where
  update : List (List Int) → List (List Int) → List (List Int)
  initW : LayerRec → List Int

/-- The `learning_rule` argument of `HebbianTrainer`: a single rule or
a dict keyed by layer name. -/
inductive RuleConfig where
  | single : LearningRule → RuleConfig
  | mapping : List (String × LearningRule) → RuleConfig

/-- Rule resolution of trainers.py lines 261-268: a dict is indexed by
the layer name (None models the KeyError), a single rule is used for
every layer. -/
def resolveRule (cfg : RuleConfig) (layer_name : String) : Option LearningRule :=
  match cfg with
  | .single r => some r
  | .mapping m => m.lookup layer_name

/-- Log severities used on the Hebbian update path. -/
inductive Severity where
  | debug
  | error
  deriving Repr, DecidableEq

/-- One log record: severity and message. -/
structure LogEntry where
  sev : Severity
  msg : String
  deriving Repr, DecidableEq

/-- Error outcomes of one per-batch update call: a KeyError from the
rule dict, or an error from `_prepare_data`. -/
inductive HebbianError where
  | missingRule (layer_name : String)
  | prepFailed (e : PrepError)
  deriving Repr, DecidableEq

/-- Rewrite the layer at position `idx` of a model, leaving names and
all other layers unchanged. -/
def updateLayerAt (model : Model) (idx : Nat) (f : Layer → Layer) : Model :=
  model.enum.map (fun p => if p.1 = idx then (p.2.1, f p.2.2) else p.2)

/-- Result of one per-batch update call: the (in-place mutated) model,
the emitted log, the prepared inputs in processing order, the raised
error if any, and the value returned by `output_transform` (absent
when an exception aborted the call). -/
structure UpdateResult where
  model : Model
  log : List LogEntry
  trace : List (List (List Int))
  err : Option HebbianError
  output : Option Int
  deriving Repr

/-- The layer loop of `_update` in `create_hebbian_trainer`
(trainers.py lines 256-272): per trainable-layer record, log, prepare
the data against the current model state, resolve the rule (logging at
error severity and re-raising on a KeyError), compute the delta,
reshape it to the layer's weight shape and apply it through the
optimizer; an exception stops the loop with earlier updates kept. -/
def runUpdateAux (cfg : RuleConfig) (x : Tensor) :
    List LayerRec → Model → List LogEntry → List (List (List Int)) → UpdateResult
  | [], model, log, trace => ⟨model, log, trace, none, none⟩
  | r :: rest, model, log, trace =>
    let log1 := log ++ [⟨.debug, "Updating layer " ++ r.name⟩]
    match prepare_data x (model.map Prod.snd) r.idx with
    | .error e => ⟨model, log1, trace, some (.prepFailed e), none⟩
    | .ok pw =>
      match resolveRule cfg r.name with
      | none =>
        ⟨model, log1 ++ [⟨.error, "No learning rule was specified for layer " ++ r.name⟩],
         trace ++ [pw.1], some (.missingRule r.name), none⟩
      | some rule =>
        let dp := rule.update pw.1 pw.2
        let model1 := updateLayerAt model r.idx (fun lyr =>
          match lyr.weightT? with
          | some w => lyr.setWeightT (local_step w (viewLike w dp.flatten))
          | none => lyr)
        runUpdateAux cfg x rest model1 log1 (trace ++ [pw.1])

/-- A batch as delivered by the data loader: inputs and labels. -/
structure Batch where
  inputs : Tensor
  labels : List Int

/-- Modelled from the spec: `utils.prepare_batch` is repository code
not present under src/; it moves the batch to the device, which is
value-level identity — it returns the (inputs, labels) pair. -/
def prepare_batch (b : Batch) : Tensor × List Int := (b.inputs, b.labels)

/-- One call of the `_update` closure built by `create_hebbian_trainer`
(trainers.py lines 251-274): split the batch, run the per-layer loop,
and on normal completion return `output_transform(x, y)` (the default
transform is `fun x y => 0`). -/
def hebbianUpdate (cfg : RuleConfig) (recs : List LayerRec)
    (output_transform : Tensor → List Int → Int) (b : Batch) (model : Model) : UpdateResult :=
  let xy := prepare_batch b
  let res := runUpdateAux cfg xy.1 recs model [] []
  { res with output := match res.err with
      | none => some (output_transform xy.1 xy.2)
      | some _ => none }

/-- Weight initialization at trainer construction (trainers.py lines
185-191): `rule.init_layers(self.layers)` sets each record's layer
weight to the rule's initialization data, keeping the weight shape. -/
def init_layers (rule : LearningRule) (recs : List LayerRec) (model : Model) : Model :=
  recs.foldl (fun m r => updateLayerAt m r.idx (fun lyr =>
    match lyr.weightT? with
    | some w => lyr.setWeightT (viewLike w (rule.initW r))
    | none => lyr)) model

/-- The initialization dispatch of trainers.py lines 186-191: a dict
calls `init_layers` once per rule value, in dict order, each call
receiving the full trainable-layer record list; a single rule is
called once.  The second component records the record list passed to
each successive `init_layers` call. -/
def initPhase (cfg : RuleConfig) (recs : List LayerRec) (model : Model) :
    Model × List (List LayerRec) :=
  match cfg with
  | .single r => (init_layers r recs model, [recs])
  | .mapping m => m.foldl (fun acc p => (init_layers p.2 recs acc.1, acc.2 ++ [recs])) (model, [])

/-- Rewrite the layer at position `idx` of a plain child list. -/
def engineUpdateAt (model : List Layer) (idx : Nat) (f : Layer → Layer) : List Layer :=
  model.enum.map (fun p => if p.1 = idx then f p.2 else p.2)

/-- The index `weights_np` refers to after the initialization scan of
`HebbianEngine.train` (hebbian_engine.py lines 28-34): the scan
overwrites `weights_np` for every `Linear` child, so it ends aliased
to the weight of the last `Linear` child, if any. -/
def lastLinearIdx (model : List Layer) : Option Nat :=
  (model.enum.filterMap (fun p =>
    match p.2 with
    | .linear _ => some p.1
    | _ => none)).getLast?

/-- The initialization scan of `HebbianEngine.train` (hebbian_engine.py
lines 29-34): every `Linear` child has its weight re-drawn in place
(`weights.data.normal_`), modelled by the caller-supplied draw
`freshInit` indexed by child position; other children are untouched. -/
def engineInitPass (freshInit : Nat → List Int) (model : List Layer) : List Layer :=
  model.enum.map (fun p =>
    match p.2 with
    | .linear l => .linear { l with weight := takeLike2 l.weight (freshInit p.1) }
    | lyr => lyr)

/-- One inner-loop iteration of `HebbianEngine.train` (hebbian_engine.py
lines 47-55): flatten the batch inputs per sample, compute the delta
from the current value of the tensor `weights_np` aliases (the last
`Linear` child's weight), and apply it through the optimizer's global
`local_step`.  Modelled from the spec: the optimizer is not under
src/; §6's single-layer `local_step(delta)` applies the delta in place
to the one weight tensor the engine manages, the tensor `weights_np`
aliases.  With no `Linear` child, `weights_np` is `None` and the rule
call has no defined value; the state is modelled unchanged. -/
def engineBatchStep (rule : LearningRule) (x : Tensor) (model : List Layer) : List Layer :=
  match lastLinearIdx model with
  | none => model
  | some li =>
    let w := match model.getD li .relu with
      | .linear l => l.weight
      | _ => []
    let dp := rule.update (viewFlatten x) w
    engineUpdateAt model li (fun lyr =>
      match lyr with
      | .linear l => .linear { l with weight := add2 l.weight dp }
      | l => l)

/-- One epoch of `HebbianEngine.train`: fold the batch step over the
data loader. -/
def engineEpoch (rule : LearningRule) (batches : List Tensor) (model : List Layer) : List Layer :=
  batches.foldl (fun m x => engineBatchStep rule x m) model

/-- `HebbianEngine.train` (hebbian_engine.py lines 21-66): re-draw
every `Linear` child's weight, run `epochs` epochs of per-batch
updates against the last `Linear` child, and return
`[layer.weight ... for layer in model.children()]` — `none` models the
AttributeError raised if some child has no weight. -/
def hebbianEngineTrain (rule : LearningRule) (freshInit : Nat → List Int)
    (model : List Layer) (batches : List Tensor) (epochs : Nat) :
    List Layer × Option (List WeightT) :=
  let m0 := engineInitPass freshInit model
  let mFinal := (List.range epochs).foldl (fun m _ => engineEpoch rule batches m) m0
  (mFinal, mFinal.mapM Layer.weightT?)

/-- A concrete 1×1 dense layer used in concrete instantiations. -/
def linA : LinearLayer := ⟨[[1]], [0]⟩

/-- A second concrete 1×1 dense layer. -/
def linB : LinearLayer := ⟨[[2]], [0]⟩

/-- A concrete model with two dense children. -/
def demoModel2 : Model := [("lin1", .linear linA), ("lin2", .linear linB)]

/-- A concrete 1-in 1-out convolutional layer with a 1×1 kernel,
weight value 2 and bias 1. -/
def convC : Conv2dLayer :=
  { weight := [[[[2]]]], bias := [1], kernel_size := (1, 1), stride := (1, 1),
    padding := (0, 0), dilation := (1, 1) }

/-- A concrete mixed model: a convolutional layer followed by a dense
layer. -/
def mixedModel : Model := [("conv1", .conv2d convC), ("lin1", .linear linA)]

/-- A concrete convolutional layer with two input channels and a 1×1
kernel. -/
def convTwoCh : Conv2dLayer :=
  { weight := [[[[1]], [[1]]]], bias := [0], kernel_size := (1, 1), stride := (1, 1),
    padding := (0, 0), dilation := (1, 1) }

/-- Second dimension of a 2-D tensor held as a list of rows (`shape[1]`
of a rectangular tensor: the length of the first row). -/
def shape1 (m : List (List Int)) : Nat := (m.getD 0 []).length

/-- A concrete learning rule returning an all-ones delta shaped like
the weight view; its initialization data is empty. -/
def onesRule : LearningRule :=
  { update := fun _ w => w.map (fun row => row.map (fun _ => 1)),
    initW := fun _ => [] }

/-- The trainable-layer records of `demoModel2` when both layers are
admitted. -/
def demoRecs : List LayerRec :=
  [⟨0, "lin1", .linear linA⟩, ⟨1, "lin2", .linear linB⟩]

/-- One-record slice of the per-batch loop, used to re-describe
`runUpdateAux` as a left fold: the model state after processing a
single trainable-layer record (unchanged when preparation or rule
resolution fails, since the loop stops there). -/
def stepRec (cfg : RuleConfig) (x : Tensor) (model : Model) (r : LayerRec) : Model :=
  match prepare_data x (model.map Prod.snd) r.idx, resolveRule cfg r.name with
  | .ok pw, some rule =>
    updateLayerAt model r.idx (fun lyr =>
      match lyr.weightT? with
      | some w => lyr.setWeightT (local_step w (viewLike w ((rule.update pw.1 pw.2).flatten)))
      | none => lyr)
  | _, _ => model

/-- The prepared inputs the loop computes, layer by layer, each against
the model state that already includes the weight deltas applied to all
earlier records of the same batch. -/
def prepTrace (cfg : RuleConfig) (x : Tensor) :
    List LayerRec → Model → List (List (List Int))
  | [], _ => []
  | r :: rest, model =>
    (match prepare_data x (model.map Prod.snd) r.idx with
      | .ok pw => pw.1
      | .error _ => []) :: prepTrace cfg x rest (stepRec cfg x model r)

/-- Whether a layer is a `torch.nn.Linear` (the kind test of the
`HebbianEngine.train` scans). -/
def isLinear : Layer → Bool
  | .linear _ => true
  | _ => false

/-- Index of the last `true` entry of a kind mask; `lastLinearIdx`
factors through it. -/
def maskLastIdx (mask : List Bool) : Option Nat :=
  (mask.enum.filterMap (fun p => if p.2 then some p.1 else none)).getLast?

lemma enumFrom_filterMap_scanAux (fz : List String) (l : List (String × Layer)) :
    ∀ i, (l.enumFrom i).filterMap (fun p =>
      if isTrainableKind p.2.2 && !(fz.contains p.2.1)
      then some ⟨p.1, p.2.1, p.2.2⟩ else none) = scanAux fz i l := by
  induction l with
  | nil => intro i; rfl
  | cons p rest ih =>
    intro i
    rw [List.enumFrom_cons, List.filterMap_cons]
    cases hc : isTrainableKind p.2 && !(fz.contains p.1) with
    | true =>
      simp only [scanAux, hc, if_true]
      rw [ih]
    | false =>
      simp only [scanAux, hc]
      simp only [Bool.false_eq_true, if_false]
      rw [ih]

lemma identify_eq_scanAux (model : Model) (sf : Int) (fz : List String) :
    identifyTrainableLayers model sf fz = scanAux fz 0 (pySliceTo sf model) :=
  enumFrom_filterMap_scanAux fz (pySliceTo sf model) 0

lemma scanAux_mem {fz : List String} {r : LayerRec} :
    ∀ {i : Nat} {l : List (String × Layer)}, r ∈ scanAux fz i l →
      i ≤ r.idx ∧ l.get? (r.idx - i) = some (r.name, r.layer) ∧
      isTrainableKind r.layer = true ∧ fz.contains r.name = false := by
  intro i l
  induction l generalizing i with
  | nil => intro h; simp [scanAux] at h
  | cons p rest ih =>
    intro h
    simp only [scanAux] at h
    by_cases hc : (isTrainableKind p.2 && !(fz.contains p.1)) = true
    · rw [if_pos hc] at h
      obtain ⟨hk, hf⟩ : isTrainableKind p.2 = true ∧ (!(fz.contains p.1)) = true := by
        simpa [Bool.and_eq_true] using hc
      rcases List.mem_cons.mp h with h1 | h2
      · subst h1
        refine ⟨Nat.le_refl i, ?_, hk, by simpa using hf⟩
        simp
      · obtain ⟨hle, hget, hk2, hf2⟩ := ih h2
        refine ⟨Nat.le_trans (Nat.le_succ i) hle, ?_, hk2, hf2⟩
        have hidx : r.idx - i = (r.idx - (i + 1)) + 1 := by omega
        rw [hidx, List.get?_cons_succ]
        exact hget
    · rw [if_neg hc] at h
      obtain ⟨hle, hget, hk2, hf2⟩ := ih h
      refine ⟨Nat.le_trans (Nat.le_succ i) hle, ?_, hk2, hf2⟩
      have hidx : r.idx - i = (r.idx - (i + 1)) + 1 := by omega
      rw [hidx, List.get?_cons_succ]
      exact hget

lemma scanAux_complete {fz : List String} :
    ∀ {l : List (String × Layer)} {i j : Nat} {n : String} {lyr : Layer},
      l.get? j = some (n, lyr) → isTrainableKind lyr = true → fz.contains n = false →
      (⟨i + j, n, lyr⟩ : LayerRec) ∈ scanAux fz i l := by
  intro l
  induction l with
  | nil => intro i j n lyr h; simp at h
  | cons p rest ih =>
    intro i j n lyr hget hkind hfz
    have hfz2 : n ∉ fz := by simpa using hfz
    cases j with
    | zero =>
      rw [List.get?_cons_zero] at hget
      obtain rfl : p = (n, lyr) := Option.some.inj hget
      simp [scanAux, hkind, hfz2]
    | succ j =>
      rw [List.get?_cons_succ] at hget
      have hmem := @ih (i + 1) j n lyr hget hkind hfz
      have harith : i + (j + 1) = (i + 1) + j := by omega
      rw [harith]
      simp only [scanAux]
      by_cases hc : (isTrainableKind p.2 && !(fz.contains p.1)) = true
      · rw [if_pos hc]; exact List.mem_cons_of_mem _ hmem
      · rw [if_neg hc]; exact hmem

lemma scanAux_pairwise {fz : List String} :
    ∀ {l : List (String × Layer)} {i : Nat},
      (scanAux fz i l).Pairwise (fun a b => a.idx < b.idx) := by
  intro l
  induction l with
  | nil => intro i; simp [scanAux]
  | cons p rest ih =>
    intro i
    simp only [scanAux]
    by_cases hc : (isTrainableKind p.2 && !(fz.contains p.1)) = true
    · rw [if_pos hc]
      refine List.Pairwise.cons ?_ ih
      intro b hb
      have := (scanAux_mem hb).1
      simpa using Nat.lt_of_succ_le this
    · rw [if_neg hc]; exact ih

lemma take_get?_some {l : List α} {k j : Nat} {a : α}
    (h : (l.take k).get? j = some a) : l.get? j = some a := by
  rw [List.get?_eq_getElem?, List.getElem?_take] at h
  rw [List.get?_eq_getElem?]
  by_cases hj : j < k
  · rwa [if_pos hj] at h
  · rw [if_neg hj] at h; exact absurd h (by simp)

lemma pySliceTo_get?_some {s : Int} {l : List α} {j : Nat} {a : α}
    (h : (pySliceTo s l).get? j = some a) : l.get? j = some a := by
  unfold pySliceTo at h
  split at h <;> exact take_get?_some h

lemma pySliceTo_neg_one (l : List α) : pySliceTo (-1) l = l.take (l.length - 1) := by
  unfold pySliceTo
  rw [if_neg (by omega)]
  congr 1
  omega

/-- C7: for every model, supervised-from value and freeze set, the
trainable-layer record list contains no frozen name, contains only
dense or convolutional layers, and every record matches the model at
its original index, with the original indices strictly increasing in
model order. -/
theorem trainable_layer_list_invariants (model : Model) (supervised_from : Int)
    (freeze_layers : List String) :
    (∀ r ∈ identifyTrainableLayers model supervised_from freeze_layers,
        freeze_layers.contains r.name = false ∧ isTrainableKind r.layer = true ∧
        model.get? r.idx = some (r.name, r.layer))
    ∧ ((identifyTrainableLayers model supervised_from freeze_layers).map
        (fun r => r.idx)).Pairwise (· < ·) := by
  rw [identify_eq_scanAux]
  constructor
  · intro r hr
    obtain ⟨-, hget, hk, hf⟩ := scanAux_mem hr
    rw [Nat.sub_zero] at hget
    exact ⟨hf, hk, pySliceTo_get?_some hget⟩
  · rw [List.pairwise_map]
    exact scanAux_pairwise

/-- Witness for C7 at a concrete model: the record for layer "lin2"
produced with cutoff 2 and frozen name "lin1" satisfies the
invariants. -/
theorem trainable_layer_list_invariants_witness :
    (["lin1"].contains (⟨1, "lin2", .linear linB⟩ : LayerRec).name = false ∧
      isTrainableKind (⟨1, "lin2", .linear linB⟩ : LayerRec).layer = true ∧
      demoModel2.get? (⟨1, "lin2", .linear linB⟩ : LayerRec).idx =
        some ("lin2", .linear linB)) := by
  have h := (trainable_layer_list_invariants demoModel2 2 ["lin1"]).1
    ⟨1, "lin2", .linear linB⟩ (by decide)
  exact h

/-- C2 counterexample: in a two-dense-layer model, `supervised_from =
-1` with empty freeze list omits the last dense layer from the
trainable-layer records, although it is a dense layer of the model. -/
theorem supervised_from_neg_one_drops_last :
    demoModel2.get? 1 = some ("lin2", .linear linB) ∧
    isTrainableKind (.linear linB) = true ∧
    (identifyTrainableLayers demoModel2 (-1) []).map (fun r => r.name) = ["lin1"] ∧
    ¬ ∃ r ∈ identifyTrainableLayers demoModel2 (-1) [], r.name = "lin2" := by
  decide

/-- C2 amended: a negative `supervised_from` follows Python slice
semantics, so `-1` scans every layer except the last; with
`supervised_from = -1` and empty freeze list the record list holds
exactly the dense/convolutional layers whose index is strictly below
`model.length - 1`, with matching names and indices. -/
theorem supervised_from_neg_one_scans_all_but_last (model : Model) (r : LayerRec) :
    r ∈ identifyTrainableLayers model (-1) [] ↔
      model.get? r.idx = some (r.name, r.layer) ∧ isTrainableKind r.layer = true ∧
      r.idx + 1 < model.length := by
  rw [identify_eq_scanAux, pySliceTo_neg_one]
  constructor
  · intro hr
    obtain ⟨-, hget, hk, -⟩ := scanAux_mem hr
    rw [Nat.sub_zero, List.get?_eq_getElem?, List.getElem?_take] at hget
    by_cases hj : r.idx < model.length - 1
    · rw [if_pos hj] at hget
      rw [List.get?_eq_getElem?]
      exact ⟨hget, hk, by omega⟩
    · rw [if_neg hj] at hget; exact absurd hget (by simp)
  · rintro ⟨hget, hk, hlt⟩
    have htake : (model.take (model.length - 1)).get? r.idx = some (r.name, r.layer) := by
      rw [List.get?_eq_getElem?, List.getElem?_take, if_pos (by omega)]
      rw [List.get?_eq_getElem?] at hget
      exact hget
    have := @scanAux_complete [] (model.take (model.length - 1)) 0 r.idx r.name r.layer
      htake hk (by simp)
    simpa using this

/-- Witness for C2 amended: the first dense layer of the concrete
two-layer model is a record of the `-1` scan. -/
theorem supervised_from_neg_one_scans_all_but_last_witness :
    (⟨0, "lin1", .linear linA⟩ : LayerRec) ∈ identifyTrainableLayers demoModel2 (-1) [] :=
  (supervised_from_neg_one_scans_all_but_last demoModel2 ⟨0, "lin1", .linear linA⟩).mpr
    (by decide)

/-- C4: the Data Preparer replay is exact — with layer index 0 the
prepared activation is the batch inputs unchanged, and otherwise it is
the fold of the forward transformation of every earlier layer (in
model order, non-trainable layers included) over the batch inputs; in
the concrete [Conv2d, Linear] model the Linear layer's prepared input
is the Conv2d forward output [[7]], not the raw batch input [[3]]. -/
theorem prepare_replay_exact :
    (∀ (inputs : Tensor) (layers : List Layer), replay inputs layers 0 = inputs)
    ∧ (∀ (inputs : Tensor) (layers : List Layer) (i : Nat),
        replay inputs layers i = (layers.take i).foldl (fun x lyr => lyr.forward x) inputs)
    ∧ prepare_data (.t4 [[[[3]]]]) (mixedModel.map Prod.snd) 1 =
        .ok (viewFlatten ((Layer.conv2d convC).forward (.t4 [[[[3]]]])), linA.weight)
    ∧ viewFlatten ((Layer.conv2d convC).forward (.t4 [[[[3]]]])) = [[7]]
    ∧ viewFlatten (.t4 [[[[3]]]]) = [[3]] := by
  refine ⟨fun inputs layers => rfl, fun inputs layers i => ?_, by rfl, by decide, by decide⟩
  cases i with
  | zero => simp [replay]
  | succ n => rw [replay, if_neg (Nat.succ_ne_zero n)]

lemma getD_map_range {β : Type _} (f : Nat → β) (dflt : β) {k : Nat} (hk : 0 < k) :
    (((List.range k).map f).getD 0 dflt) = f 0 := by
  cases k with
  | zero => omega
  | succ m => rw [List.range_succ_eq_map]; rfl

lemma shape1_chunks (n : Nat) (l : List Int) : shape1 (chunks n l) = min n l.length := by
  by_cases hn : n = 0
  · subst hn; simp [chunks, shape1]
  · by_cases hl : l.length = 0
    · have hnil : l = [] := List.length_eq_zero.mp hl
      subst hnil
      simp [chunks, shape1, Nat.div_eq_of_lt (by omega : n - 1 < n)]
    · have hm : 1 ≤ (l.length + n - 1) / n := by
        rw [Nat.le_div_iff_mul_le (by omega)]
        omega
      unfold chunks shape1
      rw [getD_map_range _ _ (by omega)]
      simp [List.length_take]

lemma length_kernel_flatMap (k1 k2 : Nat) (g : Nat → Nat → Int) :
    ((List.range k1).flatMap (fun kh => (List.range k2).map (g kh))).length = k1 * k2 := by
  rw [List.length_flatMap]
  have h : (List.map (List.length ∘ fun kh => List.map (g kh) (List.range k2)) (List.range k1))
      = List.replicate k1 k2 := by
    rw [show (List.length ∘ fun kh => List.map (g kh) (List.range k2)) = fun _ => k2 from ?_]
    · rw [List.map_const', List.length_range]
    · funext kh; simp
  rw [h, List.sum_replicate, smul_eq_mul]

lemma extract_row_length {d : List (List (List (List Int)))} {C : Nat}
    (hch : ∀ s ∈ d, s.length = C) (k st pd dl : Nat × Nat) :
    ∀ row ∈ extract_image_patches d k st pd dl, row.length = C * (k.1 * k.2) := by
  intro row hrow
  unfold extract_image_patches at hrow
  obtain ⟨s, hs, hrow2⟩ := List.mem_flatMap.mp hrow
  obtain ⟨oh, hoh, hrow3⟩ := List.mem_flatMap.mp hrow2
  obtain ⟨ow, how, hrowEq⟩ := List.mem_map.mp hrow3
  subst hrowEq
  rw [List.length_flatMap]
  have hmap : List.map (List.length ∘ fun ch =>
      (List.range k.1).flatMap (fun kh => (List.range k.2).map (fun kw =>
        pix ch (((oh * st.1 + kh * dl.1 : Nat) : Int) - (pd.1 : Int))
               (((ow * st.2 + kw * dl.2 : Nat) : Int) - (pd.2 : Int))))) s
      = List.replicate s.length (k.1 * k.2) := by
    have hpt : ∀ ch ∈ s, (List.length ∘ fun ch =>
        (List.range k.1).flatMap (fun kh => (List.range k.2).map (fun kw =>
          pix ch (((oh * st.1 + kh * dl.1 : Nat) : Int) - (pd.1 : Int))
                 (((ow * st.2 + kw * dl.2 : Nat) : Int) - (pd.2 : Int))))) ch
          = (fun _ => k.1 * k.2) ch :=
      fun ch _ => length_kernel_flatMap k.1 k.2 _
    rw [List.map_congr_left hpt, List.map_const']
  rw [hmap, List.sum_replicate, smul_eq_mul, hch s hs]

/-- C3 counterexample: a convolutional layer with two input channels
and a 1×1 kernel yields a prepared input with second dimension 2 while
its weight view has second dimension 1, refuting
`prepared_input.shape[1] == weight_view.shape[1]`. -/
theorem conv_prepared_width_mismatch :
    prepare_data (.t4 [[[[5]], [[6]]]]) [.conv2d convTwoCh] 0 = .ok ([[5, 6]], [[1], [1]])
    ∧ shape1 [[5, 6]] = 2 ∧ shape1 [[1], [1]] = 1 :=
  ⟨rfl, rfl, rfl⟩

/-- C3 amended: for a dense layer the Data Preparer returns the
layer's weight unchanged next to the flattened replayed activation
(so the shape postcondition is exactly feature-dimension agreement of
the model); for a convolutional layer the weight view's second
dimension is kH·kW but every prepared-input row has length
in_channels·kH·kW, so the postcondition holds exactly when the layer
has one input channel. -/
theorem prepared_shape_contract (x : Tensor) (layers : List Layer) (i : Nat) :
    (∀ lin : LinearLayer, layers.get? i = some (.linear lin) →
      prepare_data x layers i = .ok (viewFlatten (replay x layers i), lin.weight))
    ∧ (∀ (c : Conv2dLayer) (d : List (List (List (List Int)))) (C : Nat),
        layers.get? i = some (.conv2d c) →
        replay x layers i = .t4 d →
        (∀ s ∈ d, s.length = C) →
        c.kernel_size.1 * c.kernel_size.2 ≤ (flatten4 c.weight).length →
        prepare_data x layers i =
          .ok (extract_image_patches d c.kernel_size c.stride c.padding c.dilation,
               chunks (c.kernel_size.1 * c.kernel_size.2) (flatten4 c.weight))
        ∧ shape1 (chunks (c.kernel_size.1 * c.kernel_size.2) (flatten4 c.weight)) =
            c.kernel_size.1 * c.kernel_size.2
        ∧ ∀ row ∈ extract_image_patches d c.kernel_size c.stride c.padding c.dilation,
            row.length = C * (c.kernel_size.1 * c.kernel_size.2)) := by
  constructor
  · intro lin hget
    rw [List.get?_eq_getElem?] at hget
    simp [prepare_data, hget]
  · intro c d C hget hrep hch hw
    rw [List.get?_eq_getElem?] at hget
    refine ⟨?_, ?_, extract_row_length hch _ _ _ _⟩
    · simp [prepare_data, hget, hrep, viewFlatten]
    · rw [shape1_chunks]
      exact Nat.min_eq_left hw

/-- Witness for C3 amended at the concrete two-channel convolutional
layer: the hypotheses are satisfiable and give the computed pair and
weight-view width. -/
theorem prepared_shape_contract_witness :
    prepare_data (.t4 [[[[5]], [[6]]]]) [.conv2d convTwoCh] 0 =
      .ok (extract_image_patches [[[[5]], [[6]]]]
             convTwoCh.kernel_size convTwoCh.stride convTwoCh.padding convTwoCh.dilation,
           chunks (convTwoCh.kernel_size.1 * convTwoCh.kernel_size.2) (flatten4 convTwoCh.weight))
    ∧ shape1 (chunks (convTwoCh.kernel_size.1 * convTwoCh.kernel_size.2)
        (flatten4 convTwoCh.weight)) = convTwoCh.kernel_size.1 * convTwoCh.kernel_size.2 := by
  have h := (prepared_shape_contract (.t4 [[[[5]], [[6]]]]) [.conv2d convTwoCh] 0).2
    convTwoCh [[[[5]], [[6]]]] 2 rfl rfl (by decide) (by decide)
  exact ⟨h.1, h.2.1⟩

/-- C1 counterexample: with two 1×1 dense layers and an all-ones rule,
the prepared input recorded for the second layer is [[2]] — computed
against the first layer's weight after its same-batch update — while
the pre-update (frozen) forward pass on the initial model prepares
[[1]] for that layer. -/
theorem update_uses_updated_earlier_weights :
    (hebbianUpdate (.single onesRule) demoRecs (fun _ _ => 0)
        ⟨.t2 [[1]], []⟩ demoModel2).trace = [[[1]], [[2]]]
    ∧ prepare_data (.t2 [[1]]) (demoModel2.map Prod.snd) 1 = .ok ([[1]], linB.weight) :=
  ⟨rfl, rfl⟩

/-- C1 amended: within one batch, preparation is interleaved with the
updates — the loop's final model is the left fold of the single-record
step over the records, and the recorded prepared inputs are those of
`prepTrace`, where each layer's input is computed against the model
state that already carries the deltas applied to every earlier record
of the same batch. -/
theorem per_batch_trace_interleaved (cfg : RuleConfig) (x : Tensor) :
    ∀ (recs : List LayerRec) (model : Model) (log : List LogEntry)
      (trace : List (List (List Int))),
      (runUpdateAux cfg x recs model log trace).err = none →
      (runUpdateAux cfg x recs model log trace).model = recs.foldl (stepRec cfg x) model
      ∧ (runUpdateAux cfg x recs model log trace).trace = trace ++ prepTrace cfg x recs model := by
  intro recs
  induction recs with
  | nil => intro model log trace _; simp [runUpdateAux, prepTrace]
  | cons r rest ih =>
    intro model log trace herr
    cases hprep : prepare_data x (model.map Prod.snd) r.idx with
    | error e =>
      exfalso
      simp [runUpdateAux, hprep] at herr
    | ok pw =>
      cases hrule : resolveRule cfg r.name with
      | none =>
        exfalso
        simp [runUpdateAux, hprep, hrule] at herr
      | some rule =>
        have hstep : stepRec cfg x model r = updateLayerAt model r.idx (fun lyr =>
            match lyr.weightT? with
            | some w =>
              lyr.setWeightT (local_step w (viewLike w ((rule.update pw.1 pw.2).flatten)))
            | none => lyr) := by
          simp [stepRec, hprep, hrule]
        have hred : runUpdateAux cfg x (r :: rest) model log trace =
            runUpdateAux cfg x rest (stepRec cfg x model r)
              (log ++ [⟨.debug, "Updating layer " ++ r.name⟩]) (trace ++ [pw.1]) := by
          rw [hstep]
          simp [runUpdateAux, hprep, hrule]
        rw [hred] at herr ⊢
        obtain ⟨h1, h2⟩ := ih _ _ _ herr
        refine ⟨by rw [h1, List.foldl_cons], ?_⟩
        rw [h2, prepTrace, hprep]
        simp

/-- Witness for C1 amended: on the concrete two-dense-layer model with
the all-ones rule the loop's error is none and its final model is the
fold of the single-record step. -/
theorem per_batch_trace_interleaved_witness :
    (runUpdateAux (.single onesRule) (.t2 [[1]]) demoRecs demoModel2 [] []).model
      = demoRecs.foldl (stepRec (.single onesRule) (.t2 [[1]])) demoModel2 :=
  (per_batch_trace_interleaved (.single onesRule) (.t2 [[1]]) demoRecs demoModel2 [] []
    (by rfl)).1

/-- C5: with trainable layers "a" (index 0) and "b" (index 1) and a
rule mapping holding only "a", one per-batch update call applies
exactly one delta to layer a's weights, leaves layer b's weights at
their initial value, raises the missing-rule error for "b" (logged at
error severity), and rolls nothing back. -/
theorem partial_failure_non_atomicity (A B : LinearLayer) (ra : LearningRule)
    (x : Tensor) (lbls : List Int) :
    (hebbianUpdate (.mapping [("a", ra)])
        [⟨0, "a", .linear A⟩, ⟨1, "b", .linear B⟩] (fun _ _ => 0) ⟨x, lbls⟩
        [("a", .linear A), ("b", .linear B)]).err = some (.missingRule "b")
    ∧ (hebbianUpdate (.mapping [("a", ra)])
        [⟨0, "a", .linear A⟩, ⟨1, "b", .linear B⟩] (fun _ _ => 0) ⟨x, lbls⟩
        [("a", .linear A), ("b", .linear B)]).model =
      [("a", .linear ⟨add2 A.weight
          (takeLike2 A.weight ((ra.update (viewFlatten x) A.weight).flatten)), A.bias⟩),
       ("b", .linear B)]
    ∧ (hebbianUpdate (.mapping [("a", ra)])
        [⟨0, "a", .linear A⟩, ⟨1, "b", .linear B⟩] (fun _ _ => 0) ⟨x, lbls⟩
        [("a", .linear A), ("b", .linear B)]).log =
      [⟨.debug, "Updating layer a"⟩, ⟨.debug, "Updating layer b"⟩,
       ⟨.error, "No learning rule was specified for layer b"⟩] :=
  ⟨rfl, rfl, rfl⟩

/-- C6: a single configured rule resolves for every layer name; a
mapping is looked up by layer name at update time, and on a missing
name the per-batch update stops with the missing-rule error surfaced
in its result, after appending a log entry at error severity, leaving
the model untouched from that point. -/
theorem rule_resolution_contract :
    (∀ (r : LearningRule) (n : String), resolveRule (.single r) n = some r)
    ∧ ∀ (m : List (String × LearningRule)) (r : LayerRec) (rest : List LayerRec)
        (x : Tensor) (model : Model) (log : List LogEntry)
        (trace : List (List (List Int))) (pw : List (List Int) × List (List Int)),
        m.lookup r.name = none →
        prepare_data x (model.map Prod.snd) r.idx = .ok pw →
        (runUpdateAux (.mapping m) x (r :: rest) model log trace).err =
            some (.missingRule r.name)
        ∧ (runUpdateAux (.mapping m) x (r :: rest) model log trace).log =
            log ++ [⟨.debug, "Updating layer " ++ r.name⟩,
                    ⟨.error, "No learning rule was specified for layer " ++ r.name⟩]
        ∧ (runUpdateAux (.mapping m) x (r :: rest) model log trace).model = model := by
  constructor
  · intro r n; rfl
  · intro m r rest x model log trace pw hlk hprep
    have hres : resolveRule (.mapping m) r.name = none := hlk
    refine ⟨?_, ?_, ?_⟩ <;> simp [runUpdateAux, hprep, hres]

/-- Witness for C6 at a concrete empty mapping: the update's error is
the missing-rule error for the first record's name. -/
theorem rule_resolution_contract_witness :
    (runUpdateAux (.mapping []) (.t2 [[1]]) [⟨0, "lin1", .linear linA⟩]
        demoModel2 [] []).err = some (.missingRule "lin1") :=
  (rule_resolution_contract.2 [] ⟨0, "lin1", .linear linA⟩ [] (.t2 [[1]]) demoModel2 [] []
    ([[1]], linA.weight) rfl rfl).1

/-- C8: two batches with the same inputs and different labels produce
the same final model (identical weight deltas), the same prepared
inputs, the same error outcome and the same log — labels can reach
only the returned summary value. -/
theorem label_noninterference (cfg : RuleConfig) (recs : List LayerRec)
    (output_transform : Tensor → List Int → Int) (model : Model) (x : Tensor)
    (labels1 labels2 : List Int) :
    (hebbianUpdate cfg recs output_transform ⟨x, labels1⟩ model).model =
      (hebbianUpdate cfg recs output_transform ⟨x, labels2⟩ model).model
    ∧ (hebbianUpdate cfg recs output_transform ⟨x, labels1⟩ model).trace =
      (hebbianUpdate cfg recs output_transform ⟨x, labels2⟩ model).trace
    ∧ (hebbianUpdate cfg recs output_transform ⟨x, labels1⟩ model).err =
      (hebbianUpdate cfg recs output_transform ⟨x, labels2⟩ model).err
    ∧ (hebbianUpdate cfg recs output_transform ⟨x, labels1⟩ model).log =
      (hebbianUpdate cfg recs output_transform ⟨x, labels2⟩ model).log :=
  ⟨rfl, rfl, rfl, rfl⟩

lemma initFold_snd (recs : List LayerRec) :
    ∀ (m : List (String × LearningRule)) (st : Model × List (List LayerRec)),
      (m.foldl (fun acc p => (init_layers p.2 recs acc.1, acc.2 ++ [recs])) st).2
        = st.2 ++ m.map (fun _ => recs) := by
  intro m
  induction m with
  | nil => intro st; simp
  | cons p rest ih =>
    intro st
    rw [List.foldl_cons, ih]
    simp

/-- C9: with a rule mapping, trainer construction calls `init_layers`
once per rule in mapping order, each call receiving the full
trainable-layer record list; consequently the final initialized model
is the last rule's `init_layers` applied on top of all previous
rules' initializations (the last rule wins wherever rules overlap). -/
theorem mapping_init_calls_every_rule (recs : List LayerRec) (model : Model) :
    (∀ m : List (String × LearningRule),
      (initPhase (.mapping m) recs model).2 = m.map (fun _ => recs))
    ∧ ∀ (m : List (String × LearningRule)) (p : String × LearningRule),
      (initPhase (.mapping (m ++ [p])) recs model).1 =
        init_layers p.2 recs (initPhase (.mapping m) recs model).1 := by
  constructor
  · intro m
    rw [show initPhase (.mapping m) recs model =
      m.foldl (fun acc p => (init_layers p.2 recs acc.1, acc.2 ++ [recs])) (model, []) from rfl]
    rw [initFold_snd recs m (model, [])]
    simp
  · intro m p
    rw [show initPhase (.mapping (m ++ [p])) recs model =
      (m ++ [p]).foldl (fun acc p => (init_layers p.2 recs acc.1, acc.2 ++ [recs]))
        (model, []) from rfl]
    rw [List.foldl_append, List.foldl_cons, List.foldl_nil]
    rfl

lemma lastLinearIdx_eq_mask (model : List Layer) :
    lastLinearIdx model = maskLastIdx (model.map isLinear) := by
  unfold lastLinearIdx maskLastIdx
  rw [List.enum_map, List.filterMap_map]
  have hfun : ((fun p : Nat × Bool => if p.2 then some p.1 else none) ∘ Prod.map id isLinear)
      = (fun p : Nat × Layer =>
          match p.2 with
          | .linear _ => some p.1
          | _ => none) := by
    funext p
    obtain ⟨i, l⟩ := p
    cases l <;> rfl
  rw [hfun]

lemma map_isLinear_enum_map (model : List Layer) (g : Nat × Layer → Layer)
    (hg : ∀ p, isLinear (g p) = isLinear p.2) :
    (model.enum.map g).map isLinear = model.map isLinear := by
  rw [List.map_map]
  have h1 : isLinear ∘ g = (fun p : Nat × Layer => isLinear p.2) := by
    funext p; exact hg p
  rw [h1]
  rw [show (fun p : Nat × Layer => isLinear p.2) = isLinear ∘ Prod.snd from rfl]
  rw [← List.map_map, List.enum_map_snd]

lemma engineBatchStep_mask (rule : LearningRule) (x : Tensor) (model : List Layer) :
    (engineBatchStep rule x model).map isLinear = model.map isLinear := by
  unfold engineBatchStep
  cases h : lastLinearIdx model with
  | none => rfl
  | some li =>
    apply map_isLinear_enum_map
    intro p
    by_cases hp : p.1 = li
    · simp only [engineUpdateAt, hp, if_true]
      cases p.2 <;> rfl
    · simp only [engineUpdateAt, hp, if_false]

lemma engineInitPass_mask (freshInit : Nat → List Int) (model : List Layer) :
    (engineInitPass freshInit model).map isLinear = model.map isLinear := by
  apply map_isLinear_enum_map
  intro p
  cases p.2 <;> rfl

lemma engineBatchStep_get?_other (rule : LearningRule) (x : Tensor) (model : List Layer)
    {li j : Nat} (h : lastLinearIdx model = some li) (hj : j ≠ li) :
    (engineBatchStep rule x model).get? j = model.get? j := by
  simp only [engineBatchStep, h]
  unfold engineUpdateAt
  rw [List.get?_map, List.get?_eq_getElem?, List.get?_eq_getElem?, List.getElem?_enum]
  cases hm : model[j]? with
  | none => rfl
  | some a => simp [hj]

lemma engineBatchStep_get?_last (rule : LearningRule) (x : Tensor) (model : List Layer)
    {li : Nat} {l : LinearLayer} (h : lastLinearIdx model = some li)
    (hl : model.get? li = some (.linear l)) :
    (engineBatchStep rule x model).get? li =
      some (.linear ⟨add2 l.weight (rule.update (viewFlatten x) l.weight), l.bias⟩) := by
  have hgd : model.getD li .relu = .linear l := by
    rw [List.getD_eq_get?, hl]; rfl
  rw [List.get?_eq_getElem?] at hl
  simp only [engineBatchStep, h, hgd]
  unfold engineUpdateAt
  rw [List.get?_map, List.get?_eq_getElem?, List.getElem?_enum, hl]
  simp

lemma engineInitPass_get?_linear (freshInit : Nat → List Int) (model : List Layer)
    {j : Nat} {l : LinearLayer} (hl : model.get? j = some (.linear l)) :
    (engineInitPass freshInit model).get? j =
      some (.linear ⟨takeLike2 l.weight (freshInit j), l.bias⟩) := by
  rw [List.get?_eq_getElem?] at hl
  unfold engineInitPass
  rw [List.get?_map, List.get?_eq_getElem?, List.getElem?_enum, hl]
  rfl

lemma engineInitPass_get?_other (freshInit : Nat → List Int) (model : List Layer)
    {j : Nat} {lyr : Layer} (hl : model.get? j = some lyr) (hk : isLinear lyr = false) :
    (engineInitPass freshInit model).get? j = some lyr := by
  rw [List.get?_eq_getElem?] at hl
  unfold engineInitPass
  rw [List.get?_map, List.get?_eq_getElem?, List.getElem?_enum, hl]
  cases lyr <;> simp_all [isLinear]

lemma engineEpoch_mask (rule : LearningRule) :
    ∀ (batches : List Tensor) (model : List Layer),
      (engineEpoch rule batches model).map isLinear = model.map isLinear := by
  intro batches
  induction batches with
  | nil => intro model; rfl
  | cons b bs ih =>
    intro model
    rw [show engineEpoch rule (b :: bs) model
      = engineEpoch rule bs (engineBatchStep rule b model) from rfl]
    rw [ih, engineBatchStep_mask]

lemma engineEpoch_get?_other (rule : LearningRule) :
    ∀ (batches : List Tensor) (model : List Layer) {li j : Nat},
      lastLinearIdx model = some li → j ≠ li →
      (engineEpoch rule batches model).get? j = model.get? j := by
  intro batches
  induction batches with
  | nil => intro model li j _ _; rfl
  | cons b bs ih =>
    intro model li j h hj
    have h2 : lastLinearIdx (engineBatchStep rule b model) = some li := by
      rw [lastLinearIdx_eq_mask, engineBatchStep_mask, ← lastLinearIdx_eq_mask]
      exact h
    rw [show engineEpoch rule (b :: bs) model
      = engineEpoch rule bs (engineBatchStep rule b model) from rfl]
    rw [ih _ h2 hj, engineBatchStep_get?_other rule b model h hj]

lemma engineEpochs_mask (rule : LearningRule) (batches : List Tensor) :
    ∀ (epochs : Nat) (model : List Layer),
      ((List.range epochs).foldl (fun m _ => engineEpoch rule batches m) model).map isLinear
        = model.map isLinear := by
  intro epochs
  induction epochs with
  | zero => intro model; rfl
  | succ n ih =>
    intro model
    rw [List.range_succ, List.foldl_append, List.foldl_cons, List.foldl_nil]
    rw [engineEpoch_mask, ih]

lemma engineEpochs_get?_other (rule : LearningRule) (batches : List Tensor) :
    ∀ (epochs : Nat) (model : List Layer) {li j : Nat},
      lastLinearIdx model = some li → j ≠ li →
      ((List.range epochs).foldl (fun m _ => engineEpoch rule batches m) model).get? j
        = model.get? j := by
  intro epochs
  induction epochs with
  | zero => intro model li j _ _; rfl
  | succ n ih =>
    intro model li j h hj
    have hn : lastLinearIdx
        ((List.range n).foldl (fun m _ => engineEpoch rule batches m) model) = some li := by
      rw [lastLinearIdx_eq_mask, engineEpochs_mask, ← lastLinearIdx_eq_mask]
      exact h
    rw [List.range_succ, List.foldl_append, List.foldl_cons, List.foldl_nil]
    rw [engineEpoch_get?_other rule batches _ hn hj, ih _ h hj]

/-- C10: `HebbianEngine.train` re-draws the weights of every `Linear`
child and leaves the other children untouched; each per-batch step
reads the current weight of, and applies its delta to, only the last
`Linear` child, whatever the number of `Linear` children; across all
epochs every other child keeps its post-initialization value; and the
returned value collects `layer.weight` over all children of the final
model. -/
theorem engine_trains_only_last_linear :
    (∀ (freshInit : Nat → List Int) (model : List Layer) (j : Nat) (l : LinearLayer),
      model.get? j = some (.linear l) →
      (engineInitPass freshInit model).get? j =
        some (.linear ⟨takeLike2 l.weight (freshInit j), l.bias⟩))
    ∧ (∀ (freshInit : Nat → List Int) (model : List Layer) (j : Nat) (lyr : Layer),
      model.get? j = some lyr → isLinear lyr = false →
      (engineInitPass freshInit model).get? j = some lyr)
    ∧ (∀ (rule : LearningRule) (x : Tensor) (model : List Layer) (li j : Nat),
      lastLinearIdx model = some li → j ≠ li →
      (engineBatchStep rule x model).get? j = model.get? j)
    ∧ (∀ (rule : LearningRule) (x : Tensor) (model : List Layer) (li : Nat) (l : LinearLayer),
      lastLinearIdx model = some li → model.get? li = some (.linear l) →
      (engineBatchStep rule x model).get? li =
        some (.linear ⟨add2 l.weight (rule.update (viewFlatten x) l.weight), l.bias⟩))
    ∧ (∀ (rule : LearningRule) (freshInit : Nat → List Int) (model : List Layer)
        (batches : List Tensor) (epochs : Nat) (li j : Nat),
      lastLinearIdx model = some li → j ≠ li →
      (hebbianEngineTrain rule freshInit model batches epochs).1.get? j =
        (engineInitPass freshInit model).get? j)
    ∧ ∀ (rule : LearningRule) (freshInit : Nat → List Int) (model : List Layer)
        (batches : List Tensor) (epochs : Nat),
      (hebbianEngineTrain rule freshInit model batches epochs).2 =
        (hebbianEngineTrain rule freshInit model batches epochs).1.mapM Layer.weightT? := by
  refine ⟨?_, ?_, ?_, ?_, ?_, ?_⟩
  · intro freshInit model j l hl
    exact engineInitPass_get?_linear freshInit model hl
  · intro freshInit model j lyr hl hk
    exact engineInitPass_get?_other freshInit model hl hk
  · intro rule x model li j h hj
    exact engineBatchStep_get?_other rule x model h hj
  · intro rule x model li l h hl
    exact engineBatchStep_get?_last rule x model h hl
  · intro rule freshInit model batches epochs li j h hj
    have hinit : lastLinearIdx (engineInitPass freshInit model) = some li := by
      rw [lastLinearIdx_eq_mask, engineInitPass_mask, ← lastLinearIdx_eq_mask]
      exact h
    exact engineEpochs_get?_other rule batches epochs (engineInitPass freshInit model) hinit hj
  · intro rule freshInit model batches epochs
    rfl

/-- Witness for C10 on a concrete two-dense-children model: the
initialization pass re-draws the first child, a batch step leaves the
first child alone and updates the last, and the non-last child of a
full run keeps its initialization value. -/
theorem engine_trains_only_last_linear_witness :
    (engineInitPass (fun _ => [7]) [.linear linA, .linear linB]).get? 0 =
      some (.linear ⟨takeLike2 linA.weight ((fun (_ : Nat) => ([7] : List Int)) 0), linA.bias⟩)
    ∧ (engineBatchStep onesRule (.t2 [[1]]) [.linear linA, .linear linB]).get? 0 =
        [Layer.linear linA, Layer.linear linB].get? 0
    ∧ (hebbianEngineTrain onesRule (fun _ => [7]) [.linear linA, .linear linB]
        [.t2 [[1]]] 3).1.get? 0 =
        (engineInitPass (fun _ => [7]) [.linear linA, .linear linB]).get? 0 := by
  have h1 := engine_trains_only_last_linear.1 (fun _ => [7]) [.linear linA, .linear linB]
    0 linA (by rfl)
  have h3 := engine_trains_only_last_linear.2.2.1 onesRule (.t2 [[1]])
    [.linear linA, .linear linB] 1 0 (by rfl) (by decide)
  have h5 := engine_trains_only_last_linear.2.2.2.2.1 onesRule (fun _ => [7])
    [.linear linA, .linear linB] [.t2 [[1]]] 3 1 0 (by rfl) (by decide)
  exact ⟨h1, h3, h5⟩

end PytorchHebbian
